import Mathlib

/-!
Shallow embedding of parts of the lima repository (guest agent event loop,
`limactl start` host-agent watching) in Lean 4, with theorems checking the
natural-language specification against the code.

Go maps are modelled as association lists with in-place overwrite
(`upsertA`) and first-match lookup (`lookupA`); maps built from the empty
list have pairwise-distinct keys, so the model is a faithful finite map.
Go map iteration order is unspecified; the model iterates in first-insertion
order, and all theorems about map-iteration results are stated at the level
of membership, which is order-independent.
-/

namespace Lima

/-- Association-list lookup: first binding wins (bindings are unique for
maps built by `upsertA` from `[]`). Models `m[k]` on a Go map. -/
def lookupA {α : Type} : List (String × α) → String → Option α
  | [], _ => none
  | (k', v) :: rest, k => if k' = k then some v else lookupA rest k

/-- Association-list insert-or-overwrite. Models `m[k] = v` on a Go map. -/
def upsertA {α : Type} : List (String × α) → String → α → List (String × α)
  | [], k, v => [(k, v)]
  | (k', v') :: rest, k, v =>
      if k' = k then (k, v) :: rest else (k', v') :: upsertA rest k v

theorem upsertA_cons_hit {α : Type} (rest : List (String × α)) (k : String) (v v' : α) :
    upsertA ((k, v') :: rest) k v = (k, v) :: rest := by
  simp [upsertA]

theorem upsertA_cons_miss {α : Type} (rest : List (String × α)) (k0 k : String) (v v' : α)
    (h : k0 ≠ k) : upsertA ((k0, v') :: rest) k v = (k0, v') :: upsertA rest k v := by
  simp [upsertA, h]

theorem lookupA_upsertA_self {α : Type} (m : List (String × α)) (k : String) (v : α) :
    lookupA (upsertA m k v) k = some v := by
  induction m with
  | nil => simp [upsertA, lookupA]
  | cons hd tl ih =>
      obtain ⟨k', v'⟩ := hd
      by_cases h : k' = k
      · simp [upsertA, h, lookupA]
      · simp [upsertA, h, lookupA, ih]

theorem lookupA_upsertA_ne {α : Type} (m : List (String × α)) (k k' : String) (v : α)
    (h : k' ≠ k) : lookupA (upsertA m k v) k' = lookupA m k' := by
  have h2 : k ≠ k' := Ne.symm h
  induction m with
  | nil => simp [upsertA, lookupA, h2]
  | cons hd tl ih =>
      obtain ⟨k0, v0⟩ := hd
      by_cases h0 : k0 = k
      · subst h0
        simp [upsertA, lookupA, h2]
      · simp [upsertA, h0, lookupA, ih]

theorem mem_keys_upsertA {α : Type} (m : List (String × α)) (k x : String) (v : α) :
    x ∈ (upsertA m k v).map Prod.fst ↔ x = k ∨ x ∈ m.map Prod.fst := by
  induction m with
  | nil => simp [upsertA]
  | cons hd tl ih =>
      obtain ⟨k0, v0⟩ := hd
      by_cases h0 : k0 = k
      · subst h0
        simp only [upsertA_cons_hit, List.map_cons, List.mem_cons]
        tauto
      · simp only [upsertA_cons_miss _ _ _ _ _ h0, List.map_cons, List.mem_cons, ih]
        tauto

theorem nodup_keys_upsertA {α : Type} (m : List (String × α)) (k : String) (v : α)
    (h : (m.map Prod.fst).Nodup) : ((upsertA m k v).map Prod.fst).Nodup := by
  induction m with
  | nil => simp [upsertA]
  | cons hd tl ih =>
      obtain ⟨k0, v0⟩ := hd
      simp only [List.map_cons, List.nodup_cons] at h
      by_cases h0 : k0 = k
      · subst h0
        simp only [upsertA_cons_hit, List.map_cons, List.nodup_cons]
        exact h
      · simp only [upsertA_cons_miss _ _ _ _ _ h0, List.map_cons, List.nodup_cons]
        refine ⟨?_, ih h.2⟩
        rw [mem_keys_upsertA]
        rintro (rfl | hmem)
        · exact h0 rfl
        · exact h.1 hmem

theorem lookupA_eq_some_of_mem {α : Type} (m : List (String × α)) (k : String) (v : α)
    (hnd : (m.map Prod.fst).Nodup) (hmem : (k, v) ∈ m) : lookupA m k = some v := by
  induction m with
  | nil => cases hmem
  | cons hd tl ih =>
      obtain ⟨k0, v0⟩ := hd
      simp only [List.map_cons, List.nodup_cons] at hnd
      rcases List.mem_cons.mp hmem with h | h
      · cases h
        simp [lookupA]
      · have hk : k0 ≠ k := by
          rintro rfl
          exact hnd.1 (List.mem_map.mpr ⟨(k0, v), h, rfl⟩)
        simp [lookupA, hk, ih hnd.2 h]

theorem mem_of_lookupA_eq_some {α : Type} (m : List (String × α)) (k : String) (v : α)
    (h : lookupA m k = some v) : (k, v) ∈ m := by
  induction m with
  | nil => simp [lookupA] at h
  | cons hd tl ih =>
      obtain ⟨k0, v0⟩ := hd
      by_cases h0 : k0 = k
      · subst h0
        simp [lookupA] at h
        subst h
        exact List.mem_cons_self _ _
      · simp [lookupA, h0] at h
        exact List.mem_cons_of_mem _ (ih h)

/-- `api.IPPort` from `pkg/guestagent/api`: a local listening endpoint. -/
structure IPPort where
  IP : String
  Port : Int
deriving DecidableEq, Repr

/-- Modelled from the spec: `api.IPPort.String` is not under `src/`; the spec
says ports are keyed "by `ip:port`", so the key is the `ip:port` rendering. -/
def IPPort.String (p : IPPort) : String := p.IP ++ ":" ++ toString p.Port

/-- Body of the final loop of `comparePorts`/`compareSockets`: for a map
entry `(k, stillExist)`, when `stillExist` is false and `mRaw` has `k`,
append `mRaw[k]` to `removed`. -/
def removedStep {α : Type} (mRaw : List (String × α)) (removed : List α)
    (kv : String × Bool) : List α :=
  if kv.2 then removed
  else match lookupA mRaw kv.1 with
    | some x => removed ++ [x]
    | none => removed

/-- Embeds `comparePorts`. The Go loop over `neww` both tests `mRaw` (which
is never modified by the loop) and marks `mStillExist`; the two folds below
perform the same two independent updates. -/
def comparePorts (old neww : List IPPort) : List IPPort × List IPPort :=
  let mRaw := old.foldl (fun m f => upsertA m f.String f) []
  let mStillExist0 : List (String × Bool) := old.foldl (fun m f => upsertA m f.String false) []
  let added := neww.foldl (fun added f =>
    if (lookupA mRaw f.String).isSome then added else added ++ [f]) []
  let mStillExist := neww.foldl (fun m f => upsertA m f.String true) mStillExist0
  let removed := mStillExist.foldl (removedStep mRaw) []
  (added, removed)

/-- Embeds `compareSockets`. `mRaw` is allocated but never written, exactly as
in the source; unlike `comparePorts`, the `neww` loop tests the same
`mStillExist` map it is updating, so it is a single paired fold. -/
def compareSockets (old neww : List String) : List String × List String :=
  let mRaw : List (String × String) := []
  let mStillExist0 : List (String × Bool) := old.foldl (fun m k => upsertA m k false) []
  let r := neww.foldl (fun acc k =>
    (if (lookupA acc.2 k).isSome then acc.1 else acc.1 ++ [k], upsertA acc.2 k true))
    ([], mStillExist0)
  let removed := r.2.foldl (removedStep mRaw) []
  (r.1, removed)

/-! ### Fold lemmas for the map-building loops -/

theorem lookupA_foldl_upsert_const {β : Type} (kf : β → String) (c : Bool)
    (xs : List β) (m0 : List (String × Bool)) (k : String) :
    lookupA (xs.foldl (fun m x => upsertA m (kf x) c) m0) k
      = if k ∈ xs.map kf then some c else lookupA m0 k := by
  induction xs generalizing m0 with
  | nil => simp
  | cons x xs ih =>
      simp only [List.foldl_cons, ih, List.map_cons, List.mem_cons]
      by_cases hx : kf x = k
      · by_cases hmem : k ∈ xs.map kf
        · simp [hmem, hx]
        · simp [hmem, hx, lookupA_upsertA_self]
      · have hne : k ≠ kf x := fun hh => hx hh.symm
        by_cases hmem : k ∈ xs.map kf
        · simp [hmem, hne]
        · simp [hmem, hne, lookupA_upsertA_ne _ _ _ _ hne]

theorem nodup_keys_foldl_upsert {α β : Type} (kf : β → String) (vf : β → α)
    (xs : List β) (m0 : List (String × α)) (h : (m0.map Prod.fst).Nodup) :
    ((xs.foldl (fun m x => upsertA m (kf x) (vf x)) m0).map Prod.fst).Nodup := by
  induction xs generalizing m0 with
  | nil => simpa
  | cons x xs ih =>
      simp only [List.foldl_cons]
      exact ih _ (nodup_keys_upsertA _ _ _ h)

theorem lookupA_foldl_upsert_self_isSome (xs : List IPPort)
    (m0 : List (String × IPPort)) (k : String) :
    (lookupA (xs.foldl (fun m f => upsertA m f.String f) m0) k).isSome
      ↔ k ∈ xs.map IPPort.String ∨ (lookupA m0 k).isSome := by
  induction xs generalizing m0 with
  | nil => simp
  | cons x xs ih =>
      simp only [List.foldl_cons, ih, List.map_cons, List.mem_cons]
      by_cases hx : x.String = k
      · simp [hx, lookupA_upsertA_self]
      · have hne : k ≠ x.String := fun hh => hx hh.symm
        have hne2 : ¬k = x.String := hne
        rw [lookupA_upsertA_ne _ _ _ _ hne]
        constructor
        · rintro (hm | hs)
          · exact Or.inl (Or.inr hm)
          · exact Or.inr hs
        · rintro ((hk | hm) | hs)
          · exact absurd hk hne2
          · exact Or.inl hm
          · exact Or.inr hs

theorem lookupA_foldl_upsert_self_mem (xs : List IPPort)
    (m0 : List (String × IPPort)) (k : String) (x : IPPort)
    (h : lookupA (xs.foldl (fun m f => upsertA m f.String f) m0) k = some x) :
    (x ∈ xs ∧ x.String = k) ∨ lookupA m0 k = some x := by
  induction xs generalizing m0 with
  | nil => exact Or.inr h
  | cons y ys ih =>
      simp only [List.foldl_cons] at h
      rcases ih _ h with h1 | h1
      · exact Or.inl ⟨List.mem_cons_of_mem _ h1.1, h1.2⟩
      · by_cases hy : y.String = k
        · subst hy
          rw [lookupA_upsertA_self] at h1
          cases h1
          exact Or.inl ⟨List.mem_cons_self _ _, rfl⟩
        · have hne : k ≠ y.String := fun hh => hy hh.symm
          rw [lookupA_upsertA_ne _ _ _ _ hne] at h1
          exact Or.inr h1

theorem foldl_append_filter {β : Type} (p : β → Bool) (xs : List β) (a0 : List β) :
    xs.foldl (fun a f => if p f then a else a ++ [f]) a0
      = a0 ++ xs.filter (fun f => !p f) := by
  induction xs generalizing a0 with
  | nil => simp
  | cons x xs ih =>
      by_cases hx : p x
      · simp [List.foldl_cons, hx, ih]
      · simp [List.foldl_cons, hx, ih]

theorem removedStep_true {α : Type} (mr : List (String × α)) (r : List α) (k : String) :
    removedStep mr r (k, true) = r := by
  simp [removedStep]

theorem removedStep_false_some {α : Type} (mr : List (String × α)) (r : List α)
    (k : String) (y : α) (h : lookupA mr k = some y) :
    removedStep mr r (k, false) = r ++ [y] := by
  simp [removedStep, h]

theorem removedStep_false_none {α : Type} (mr : List (String × α)) (r : List α)
    (k : String) (h : lookupA mr k = none) : removedStep mr r (k, false) = r := by
  simp [removedStep, h]

theorem mem_foldl_removed {α : Type} (m : List (String × Bool))
    (mr : List (String × α)) (r0 : List α) (x : α) :
    x ∈ m.foldl (removedStep mr) r0
    ↔ x ∈ r0 ∨ ∃ kv ∈ m, kv.2 = false ∧ lookupA mr kv.1 = some x := by
  induction m generalizing r0 with
  | nil => simp
  | cons kv m ih =>
      obtain ⟨k, b⟩ := kv
      rw [List.foldl_cons]
      cases b with
      | true =>
          rw [removedStep_true, ih]
          constructor
          · rintro (h | ⟨kv, hm, hb, hl⟩)
            · exact Or.inl h
            · exact Or.inr ⟨kv, List.mem_cons_of_mem _ hm, hb, hl⟩
          · rintro (h | ⟨kv, hm, hb, hl⟩)
            · exact Or.inl h
            · rcases List.mem_cons.mp hm with rfl | hm2
              · simp at hb
              · exact Or.inr ⟨kv, hm2, hb, hl⟩
      | false =>
          cases hlk : lookupA mr k with
          | none =>
              rw [removedStep_false_none _ _ _ hlk, ih]
              constructor
              · rintro (h | ⟨kv, hm, hb, hl⟩)
                · exact Or.inl h
                · exact Or.inr ⟨kv, List.mem_cons_of_mem _ hm, hb, hl⟩
              · rintro (h | ⟨kv, hm, hb, hl⟩)
                · exact Or.inl h
                · rcases List.mem_cons.mp hm with rfl | hm2
                  · rw [hlk] at hl
                    cases hl
                  · exact Or.inr ⟨kv, hm2, hb, hl⟩
          | some y =>
              rw [removedStep_false_some _ _ _ _ hlk, ih]
              constructor
              · rintro (h | ⟨kv, hm, hb, hl⟩)
                · rcases List.mem_append.mp h with h1 | h1
                  · exact Or.inl h1
                  · rcases List.mem_singleton.mp h1 with rfl
                    exact Or.inr ⟨(k, false), List.mem_cons_self _ _, rfl, hlk⟩
                · exact Or.inr ⟨kv, List.mem_cons_of_mem _ hm, hb, hl⟩
              · rintro (h | ⟨kv, hm, hb, hl⟩)
                · exact Or.inl (List.mem_append.mpr (Or.inl h))
                · rcases List.mem_cons.mp hm with rfl | hm2
                  · rw [hlk] at hl
                    cases hl
                    exact Or.inl (List.mem_append.mpr (Or.inr (List.mem_singleton.mpr rfl)))
                  · exact Or.inr ⟨kv, hm2, hb, hl⟩

/-! ### Characterizations of `comparePorts` -/

/-- The `mRaw` map `comparePorts` builds from `old`. -/
def portsRaw (old : List IPPort) : List (String × IPPort) :=
  old.foldl (fun m f => upsertA m f.String f) []

/-- The final `mStillExist` map of `comparePorts`. -/
def portsSE (old neww : List IPPort) : List (String × Bool) :=
  neww.foldl (fun m f => upsertA m f.String true)
    (old.foldl (fun m f => upsertA m f.String false) [])

theorem comparePorts_fst (old neww : List IPPort) :
    (comparePorts old neww).1
      = neww.filter (fun g => !(lookupA (portsRaw old) g.String).isSome) := by
  show neww.foldl (fun added f =>
      if (lookupA (portsRaw old) f.String).isSome then added else added ++ [f]) [] = _
  rw [foldl_append_filter]
  simp

theorem comparePorts_snd (old neww : List IPPort) :
    (comparePorts old neww).2 = (portsSE old neww).foldl (removedStep (portsRaw old)) [] :=
  rfl

theorem lookupA_portsRaw_isSome (old : List IPPort) (k : String) :
    (lookupA (portsRaw old) k).isSome ↔ k ∈ old.map IPPort.String := by
  rw [portsRaw, lookupA_foldl_upsert_self_isSome]
  simp [lookupA]

theorem lookupA_portsRaw_mem (old : List IPPort) (k : String) (x : IPPort)
    (h : lookupA (portsRaw old) k = some x) : x ∈ old ∧ x.String = k := by
  rcases lookupA_foldl_upsert_self_mem old [] k x h with h1 | h1
  · exact h1
  · cases h1

theorem lookupA_portsSE (old neww : List IPPort) (k : String) :
    lookupA (portsSE old neww) k
      = if k ∈ neww.map IPPort.String then some true
        else if k ∈ old.map IPPort.String then some false else none := by
  rw [portsSE, lookupA_foldl_upsert_const, lookupA_foldl_upsert_const]
  simp [lookupA]

theorem nodup_portsSE (old neww : List IPPort) :
    ((portsSE old neww).map Prod.fst).Nodup := by
  rw [portsSE]
  exact nodup_keys_foldl_upsert _ _ _ _
    (nodup_keys_foldl_upsert _ _ _ _ (by simp))

theorem comparePorts_added_mem (old neww : List IPPort) (f : IPPort) :
    f ∈ (comparePorts old neww).1 ↔ f ∈ neww ∧ f.String ∉ old.map IPPort.String := by
  rw [comparePorts_fst]
  simp only [List.mem_filter]
  have hb : ((!(lookupA (portsRaw old) f.String).isSome) = true)
      ↔ f.String ∉ old.map IPPort.String := by
    rw [Bool.not_eq_true']
    constructor
    · intro hfalse hmem
      have hsome := (lookupA_portsRaw_isSome old f.String).mpr hmem
      rw [hfalse] at hsome
      cases hsome
    · intro hnm
      cases hlk : (lookupA (portsRaw old) f.String).isSome
      · rfl
      · exact absurd ((lookupA_portsRaw_isSome old f.String).mp hlk) hnm
  rw [hb]

theorem comparePorts_removed_mem (old neww : List IPPort) (x : IPPort)
    (hx : x ∈ (comparePorts old neww).2) :
    x ∈ old ∧ x.String ∈ old.map IPPort.String ∧ x.String ∉ neww.map IPPort.String := by
  rw [comparePorts_snd, mem_foldl_removed] at hx
  rcases hx with h | ⟨kv, hm, hb, hl⟩
  · cases h
  · have hse : lookupA (portsSE old neww) kv.1 = some false := by
      have := lookupA_eq_some_of_mem _ kv.1 kv.2 (nodup_portsSE old neww)
        (by cases kv; exact hm)
      rw [hb] at this
      exact this
    rw [lookupA_portsSE] at hse
    have hmem := lookupA_portsRaw_mem old kv.1 x hl
    by_cases h1 : kv.1 ∈ neww.map IPPort.String
    · rw [if_pos h1] at hse
      cases hse
    · rw [if_neg h1] at hse
      by_cases h2 : kv.1 ∈ old.map IPPort.String
      · exact ⟨hmem.1, hmem.2 ▸ h2, hmem.2 ▸ h1⟩
      · rw [if_neg h2] at hse
        cases hse

theorem comparePorts_removed_exists (old neww : List IPPort) (k : String)
    (h1 : k ∈ old.map IPPort.String) (h2 : k ∉ neww.map IPPort.String) :
    ∃ x, x ∈ (comparePorts old neww).2 ∧ x.String = k := by
  have hs : (lookupA (portsRaw old) k).isSome := (lookupA_portsRaw_isSome old k).mpr h1
  obtain ⟨x, hx⟩ := Option.isSome_iff_exists.mp hs
  have hkey := lookupA_portsRaw_mem old k x hx
  have hse : lookupA (portsSE old neww) k = some false := by
    rw [lookupA_portsSE, if_neg h2, if_pos h1]
  refine ⟨x, ?_, hkey.2⟩
  rw [comparePorts_snd, mem_foldl_removed]
  exact Or.inr ⟨(k, false), mem_of_lookupA_eq_some _ _ _ hse, rfl, hx⟩

/-! ### Characterizations of `compareSockets` -/

theorem socketsFold_snd (xs : List String) (a0 : List String)
    (m0 : List (String × Bool)) :
    (xs.foldl (fun acc k =>
      (if (lookupA acc.2 k).isSome then acc.1 else acc.1 ++ [k], upsertA acc.2 k true))
      (a0, m0)).2
    = xs.foldl (fun m k => upsertA m k true) m0 := by
  induction xs generalizing a0 m0 with
  | nil => rfl
  | cons k ks ih =>
      simp only [List.foldl_cons]
      exact ih _ _

theorem socketsFold_fst_mem (xs : List String) (a0 : List String)
    (m0 : List (String × Bool)) (x : String) :
    x ∈ (xs.foldl (fun acc k =>
      (if (lookupA acc.2 k).isSome then acc.1 else acc.1 ++ [k], upsertA acc.2 k true))
      (a0, m0)).1
    ↔ x ∈ a0 ∨ (x ∈ xs ∧ lookupA m0 x = none) := by
  induction xs generalizing a0 m0 with
  | nil => simp
  | cons k ks ih =>
      simp only [List.foldl_cons]
      rw [ih]
      by_cases hxk : x = k
      · subst hxk
        by_cases hk : (lookupA m0 x).isSome
        · rw [if_pos hk]
          have h1 : lookupA (upsertA m0 x true) x = some true := lookupA_upsertA_self _ _ _
          have h2 : lookupA m0 x ≠ none := by
            intro hh
            rw [hh] at hk
            cases hk
          simp [h1, h2]
        · rw [if_neg hk]
          have h2 : lookupA m0 x = none := by
            cases hlk : lookupA m0 x with
            | none => rfl
            | some b => rw [hlk] at hk; cases hk rfl
          simp [h2]
      · have hne : x ≠ k := hxk
        have h1 : lookupA (upsertA m0 k true) x = lookupA m0 x :=
          lookupA_upsertA_ne _ _ _ _ hne
        by_cases hk : (lookupA m0 k).isSome
        · rw [if_pos hk]
          simp [h1, hxk]
        · rw [if_neg hk]
          simp [h1, hxk]

theorem foldl_removedStep_nilRaw (m : List (String × Bool)) (r0 : List String) :
    m.foldl (removedStep ([] : List (String × String))) r0 = r0 := by
  induction m generalizing r0 with
  | nil => rfl
  | cons kv m ih =>
      obtain ⟨k, b⟩ := kv
      rw [List.foldl_cons]
      cases b with
      | true => rw [removedStep_true, ih]
      | false =>
          have h : lookupA ([] : List (String × String)) k = none := rfl
          rw [removedStep_false_none _ _ _ h, ih]

theorem compareSockets_snd (old neww : List String) :
    (compareSockets old neww).2 = [] := by
  show (neww.foldl (fun acc k =>
      (if (lookupA acc.2 k).isSome then acc.1 else acc.1 ++ [k], upsertA acc.2 k true))
      ([], old.foldl (fun m k => upsertA m k false) [])).2.foldl
        (removedStep ([] : List (String × String))) [] = []
  rw [foldl_removedStep_nilRaw]

theorem compareSockets_fst_mem (old neww : List String) (x : String) :
    x ∈ (compareSockets old neww).1 ↔ x ∈ neww ∧ x ∉ old := by
  have hshow : (compareSockets old neww).1
      = (neww.foldl (fun acc k =>
          (if (lookupA acc.2 k).isSome then acc.1 else acc.1 ++ [k], upsertA acc.2 k true))
          ([], old.foldl (fun m k => upsertA m k false) [])).1 := rfl
  rw [hshow, socketsFold_fst_mem]
  have hlk : lookupA (old.foldl (fun m k => upsertA m k false) []) x
      = if x ∈ old then some false else none := by
    have := lookupA_foldl_upsert_const (fun k : String => k) false old [] x
    simpa using this
  by_cases hx : x ∈ old
  · simp [hlk, hx]
  · simp [hlk, hx]

theorem comparePorts_self (l : List IPPort) : comparePorts l l = ([], []) := by
  have h1 : (comparePorts l l).1 = [] := by
    apply List.eq_nil_iff_forall_not_mem.mpr
    intro f hf
    rw [comparePorts_added_mem] at hf
    exact hf.2 (List.mem_map.mpr ⟨f, hf.1, rfl⟩)
  have h2 : (comparePorts l l).2 = [] := by
    apply List.eq_nil_iff_forall_not_mem.mpr
    intro x hx
    have h := comparePorts_removed_mem l l x hx
    exact h.2.2 h.2.1
  rw [show comparePorts l l = ((comparePorts l l).1, (comparePorts l l).2) from rfl, h1, h2]

theorem compareSockets_self (l : List String) : compareSockets l l = ([], []) := by
  have h1 : (compareSockets l l).1 = [] := by
    apply List.eq_nil_iff_forall_not_mem.mpr
    intro x hx
    rw [compareSockets_fst_mem] at hx
    exact hx.2 hx.1
  rw [show compareSockets l l = ((compareSockets l l).1, (compareSockets l l).2) from rfl,
    h1, compareSockets_snd]

/-! ### The guest agent event loop -/

/-- `api.Event` from `pkg/guestagent/api`, with `Time` as an abstract tick
counter. -/
structure Event where
  Time : Nat
  LocalPortsAdded : List IPPort
  LocalPortsRemoved : List IPPort
  LocalSocketsAdded : List String
  LocalSocketsRemoved : List String
  Errors : List String
deriving DecidableEq, Repr

/-- The zero `api.Event` (Go's `var empty api.Event`). -/
def emptyEvent : Event := ⟨0, [], [], [], [], []⟩

/-- Embeds `isEventEmpty`: equality with the zero event, ignoring `Time`. -/
def isEventEmpty (ev : Event) : Bool := decide ({ ev with Time := 0 } = emptyEvent)

/-- `eventState`: the previous snapshot carried between polling cycles. -/
structure EventState where
  ports : List IPPort
  sockets : List String
deriving DecidableEq, Repr

/-- The results of the two sampler calls made in one cycle. Go's
`LocalPorts`/`LocalSockets` return a value *and* an error; both are kept,
because `collectEvent` assigns the value even when the error is non-nil. -/
structure Samplers where
  localPorts : List IPPort × Option String
  localSockets : List String × Option String
deriving DecidableEq, Repr

/-- Embeds `collectEvent`, with the sampler results and the current time as
inputs. -/
def collectEvent (now : Nat) (s : Samplers) (st : EventState) : Event × EventState :=
  let newSt1 : EventState := { st with ports := s.localPorts.1 }
  match s.localPorts.2 with
  | some msg => ({ emptyEvent with Errors := [msg], Time := now }, newSt1)
  | none =>
    let pd := comparePorts st.ports newSt1.ports
    let newSt2 : EventState := { newSt1 with sockets := s.localSockets.1 }
    match s.localSockets.2 with
    | some msg =>
        ({ emptyEvent with
            LocalPortsAdded := pd.1
            LocalPortsRemoved := pd.2
            Errors := [msg]
            Time := now }, newSt2)
    | none =>
        let sd := compareSockets st.sockets newSt2.sockets
        ({ emptyEvent with
            LocalPortsAdded := pd.1
            LocalPortsRemoved := pd.2
            LocalSocketsAdded := sd.1
            LocalSocketsRemoved := sd.2
            Time := now }, newSt2)

/-- One cycle of the `Events` loop: collect the event, emit it on the channel
only when it is non-empty (`!isEventEmpty`). -/
def eventsCycle (now : Nat) (s : Samplers) (st : EventState) : Option Event × EventState :=
  let r := collectEvent now s st
  (if isEventEmpty r.1 then none else some r.1, r.2)

/-! ### Claims C1, C2, C3, C7, C10 -/

/-- C1: the claim says `compareSockets` returns `removed = old − new`, but the
`removed` side of the code is dead: `mRaw` is allocated and never written, so
the final loop's `mRaw` lookup always misses. At old = ["/tmp/a.sock"],
new = [] the code returns removed = [] where the spec requires
["/tmp/a.sock"]; in general `removed` is always empty. -/
theorem C1_compareSockets_removed_always_empty :
    compareSockets ["/tmp/a.sock"] [] = ([], [])
    ∧ ∀ old neww : List String, (compareSockets old neww).2 = [] :=
  ⟨by decide, fun old neww => compareSockets_snd old neww⟩

/-- C3: `comparePorts` diff correctness. `added` is exactly the new entries
whose `ip:port` key is absent from the old list; a key has a representative in
`removed` exactly when it is an old key and not a new key; `removed` draws its
elements from the old list; and no key appears on both sides. -/
theorem C3_comparePorts_diff_correct (old neww : List IPPort) :
    (∀ f : IPPort, f ∈ (comparePorts old neww).1
        ↔ f ∈ neww ∧ f.String ∉ old.map IPPort.String)
    ∧ (∀ k : String, (∃ x, x ∈ (comparePorts old neww).2 ∧ x.String = k)
        ↔ (k ∈ old.map IPPort.String ∧ k ∉ neww.map IPPort.String))
    ∧ (∀ x, x ∈ (comparePorts old neww).2 → x ∈ old)
    ∧ (∀ f, f ∈ (comparePorts old neww).1 →
        ∀ x, x ∈ (comparePorts old neww).2 → f.String ≠ x.String) := by
  refine ⟨comparePorts_added_mem old neww, ?_, ?_, ?_⟩
  · intro k
    constructor
    · rintro ⟨x, hx, rfl⟩
      have h := comparePorts_removed_mem old neww x hx
      exact ⟨h.2.1, h.2.2⟩
    · rintro ⟨h1, h2⟩
      exact comparePorts_removed_exists old neww k h1 h2
  · intro x hx
    exact (comparePorts_removed_mem old neww x hx).1
  · intro f hf x hx heq
    have h1 := (comparePorts_added_mem old neww f).mp hf
    have h2 := comparePorts_removed_mem old neww x hx
    exact h1.2 (heq ▸ h2.2.1)

/-- Witness for C3 at old = [127.0.0.1:80], new = [127.0.0.1:80, 127.0.0.1:443]:
the spec's own example yields added = \x7b127.0.0.1:443\x7d. -/
theorem C3_witness :
    (⟨"127.0.0.1", 443⟩ : IPPort)
      ∈ (comparePorts [⟨"127.0.0.1", 80⟩] [⟨"127.0.0.1", 80⟩, ⟨"127.0.0.1", 443⟩]).1 :=
  ((C3_comparePorts_diff_correct [⟨"127.0.0.1", 80⟩]
      [⟨"127.0.0.1", 80⟩, ⟨"127.0.0.1", 443⟩]).1 ⟨"127.0.0.1", 443⟩).mpr (by decide)

/-- C2 counterexample: with previous state (ports = [], sockets =
["/run/a.sock"]), a successful port sample [127.0.0.1:80] and a failed socket
sample returning ([], "boom"), the emitted event carries the port diff besides
the error, and the carried-forward state differs from the previous state. -/
theorem C2_counterexample :
    ¬(((collectEvent 1
          ⟨([⟨"127.0.0.1", 80⟩], none), (([] : List String), some "boom")⟩
          ⟨[], ["/run/a.sock"]⟩).1.LocalPortsAdded = []
      ∧ (collectEvent 1
          ⟨([⟨"127.0.0.1", 80⟩], none), (([] : List String), some "boom")⟩
          ⟨[], ["/run/a.sock"]⟩).2 = ⟨[], ["/run/a.sock"]⟩)) := by
  decide

/-- C2 (amended): on a failed port sample the event carries only the error and
the timestamp and the stored socket list is carried forward unchanged, but the
stored port list is replaced by the value the sampler returned alongside the
error; on a failed socket sample the event carries the port diff in addition to
the error and the timestamp, the stored port list becomes the new successful
sample, and the stored socket list is replaced by the value returned alongside
the error. -/
theorem C2_collectEvent_failure_behavior (now : Nat) (s : Samplers) (st : EventState) :
    (∀ v msg, s.localPorts = (v, some msg) →
      (collectEvent now s st).1 = { emptyEvent with Errors := [msg], Time := now }
      ∧ (collectEvent now s st).2 = { ports := v, sockets := st.sockets })
    ∧ (∀ v v2 msg, s.localPorts = (v, none) → s.localSockets = (v2, some msg) →
      (collectEvent now s st).1 = { emptyEvent with
          LocalPortsAdded := (comparePorts st.ports v).1
          LocalPortsRemoved := (comparePorts st.ports v).2
          Errors := [msg]
          Time := now }
      ∧ (collectEvent now s st).2 = { ports := v, sockets := v2 }) := by
  constructor
  · rintro v msg h
    refine ⟨?_, ?_⟩ <;> simp [collectEvent, h]
  · rintro v v2 msg h1 h2
    refine ⟨?_, ?_⟩ <;> simp [collectEvent, h1, h2]

/-- Witness for C2's amended theorem: a failed port sample at a concrete
state. -/
theorem C2_witness :
    (collectEvent 1 ⟨(([] : List IPPort), some "x"), (([] : List String), none)⟩
        ⟨[⟨"127.0.0.1", 80⟩], ["/run/a.sock"]⟩).1
      = { emptyEvent with Errors := ["x"], Time := 1 }
    ∧ (collectEvent 1 ⟨(([] : List IPPort), some "x"), (([] : List String), none)⟩
        ⟨[⟨"127.0.0.1", 80⟩], ["/run/a.sock"]⟩).2
      = { ports := [], sockets := ["/run/a.sock"] } :=
  (C2_collectEvent_failure_behavior 1
    ⟨(([] : List IPPort), some "x"), (([] : List String), none)⟩
    ⟨[⟨"127.0.0.1", 80⟩], ["/run/a.sock"]⟩).1 [] "x" rfl

/-- C7: when both samples succeed and return exactly the previous snapshot,
the computed event is empty apart from its timestamp, `isEventEmpty` accepts
it, the cycle emits nothing on the channel, and the state is unchanged. -/
theorem C7_noop_suppression (now : Nat) (s : Samplers) (st : EventState)
    (hp : s.localPorts = (st.ports, none)) (hs : s.localSockets = (st.sockets, none)) :
    (collectEvent now s st).1 = { emptyEvent with Time := now }
    ∧ isEventEmpty (collectEvent now s st).1 = true
    ∧ (eventsCycle now s st).1 = none
    ∧ (eventsCycle now s st).2 = st := by
  have hc : collectEvent now s st = ({ emptyEvent with Time := now }, st) := by
    simp [collectEvent, hp, hs, comparePorts_self, compareSockets_self, emptyEvent]
  have he : isEventEmpty ({ emptyEvent with Time := now } : Event) = true := by
    simp [isEventEmpty, emptyEvent]
  refine ⟨by rw [hc], by rw [hc]; exact he, ?_, ?_⟩
  · simp [eventsCycle, hc, he]
  · simp [eventsCycle, hc]

/-- Witness for C7 at a concrete non-empty snapshot. -/
theorem C7_witness :
    (collectEvent 3 ⟨([⟨"127.0.0.1", 80⟩], none), (["/run/a.sock"], none)⟩
        ⟨[⟨"127.0.0.1", 80⟩], ["/run/a.sock"]⟩).1
      = { emptyEvent with Time := 3 }
    ∧ isEventEmpty (collectEvent 3 ⟨([⟨"127.0.0.1", 80⟩], none), (["/run/a.sock"], none)⟩
        ⟨[⟨"127.0.0.1", 80⟩], ["/run/a.sock"]⟩).1 = true
    ∧ (eventsCycle 3 ⟨([⟨"127.0.0.1", 80⟩], none), (["/run/a.sock"], none)⟩
        ⟨[⟨"127.0.0.1", 80⟩], ["/run/a.sock"]⟩).1 = none
    ∧ (eventsCycle 3 ⟨([⟨"127.0.0.1", 80⟩], none), (["/run/a.sock"], none)⟩
        ⟨[⟨"127.0.0.1", 80⟩], ["/run/a.sock"]⟩).2
      = ⟨[⟨"127.0.0.1", 80⟩], ["/run/a.sock"]⟩ :=
  C7_noop_suppression 3 ⟨([⟨"127.0.0.1", 80⟩], none), (["/run/a.sock"], none)⟩
    ⟨[⟨"127.0.0.1", 80⟩], ["/run/a.sock"]⟩ rfl rfl

/-- C10: when the port sample fails, `collectEvent` returns an event whose
error list is exactly the one port-sampling error and which carries no diffs,
keeps the stored socket list unchanged, and its result does not depend on the
socket sampler at all (the socket table is never sampled). -/
theorem C10_port_failure_short_circuit (now : Nat) (v : List IPPort) (msg : String)
    (s s2 : Samplers) (st : EventState)
    (h : s.localPorts = (v, some msg)) (h2 : s2.localPorts = (v, some msg)) :
    (collectEvent now s st).1 = { emptyEvent with Errors := [msg], Time := now }
    ∧ (collectEvent now s st).2.sockets = st.sockets
    ∧ collectEvent now s st = collectEvent now s2 st := by
  refine ⟨?_, ?_, ?_⟩ <;> simp [collectEvent, h, h2]

/-- Witness for C10: two samplers that differ only in the socket result give
the same outcome when the port sample fails. -/
theorem C10_witness :
    (collectEvent 2 ⟨(([] : List IPPort), some "pfail"), (["/run/b.sock"], none)⟩
        ⟨[⟨"10.0.0.1", 22⟩], ["/run/a.sock"]⟩).1
      = { emptyEvent with Errors := ["pfail"], Time := 2 }
    ∧ (collectEvent 2 ⟨(([] : List IPPort), some "pfail"), (["/run/b.sock"], none)⟩
        ⟨[⟨"10.0.0.1", 22⟩], ["/run/a.sock"]⟩).2.sockets = ["/run/a.sock"]
    ∧ collectEvent 2 ⟨(([] : List IPPort), some "pfail"), (["/run/b.sock"], none)⟩
        ⟨[⟨"10.0.0.1", 22⟩], ["/run/a.sock"]⟩
      = collectEvent 2 ⟨(([] : List IPPort), some "pfail"), (([] : List String), some "sfail")⟩
        ⟨[⟨"10.0.0.1", 22⟩], ["/run/a.sock"]⟩ :=
  C10_port_failure_short_circuit 2 [] "pfail"
    ⟨(([] : List IPPort), some "pfail"), (["/run/b.sock"], none)⟩
    ⟨(([] : List IPPort), some "pfail"), (([] : List String), some "sfail")⟩
    ⟨[⟨"10.0.0.1", 22⟩], ["/run/a.sock"]⟩ rfl rfl

/-! ### `LocalPorts`: direct read of /proc/net/tcp plus the iptables merge -/

/-- Connection kinds from `procnettcp`. -/
inductive TCPKind
  | tcp
  | tcp6
  | udp
  | udp6
deriving DecidableEq, Repr

/-- Connection states from `procnettcp`; `LocalPorts` only distinguishes
LISTEN from everything else. -/
inductive TCPState
  | listen
  | other
deriving DecidableEq, Repr

/-- One parsed `/proc/net/tcp` row, as consumed by `LocalPorts`. -/
structure ProcNetTCPEntry where
  Kind : TCPKind
  State : TCPState
  IP : String
  Port : Nat
deriving DecidableEq, Repr

/-- `iptables.Entry`, as consumed by `LocalPorts`. -/
structure IptEntry where
  IP : String
  Port : Int
deriving DecidableEq, Repr

/-- Inputs of one `LocalPorts` call: host byte order, the outcome of
`procnettcp.ParseFiles`, the worthiness flag, the outcome of
`iptables.GetPorts`, and the cached `latestIPTables`. -/
structure LPEnv where
  bigEndian : Bool
  parseErr : Option String
  parsed : List ProcNetTCPEntry
  worth : Bool
  getPortsErr : Option String
  getPortsVal : List IptEntry
  latest : List IptEntry
deriving DecidableEq, Repr

/-- The error returned for big-endian hosts. -/
def bigEndianMsg : String :=
  "big endian architecture is unsupported, because I don't know how /proc/net/tcp looks like on big endian hosts"

/-- First loop of `LocalPorts`: keep TCP/TCP6 rows in LISTEN state. -/
def directPorts (parsed : List ProcNetTCPEntry) : List IPPort :=
  parsed.foldl (fun res f =>
    match f.Kind with
    | .tcp | .tcp6 =>
        if f.State = .listen then res ++ [⟨f.IP, Int.ofNat f.Port⟩] else res
    | _ => res) []

/-- Final loop of `LocalPorts`: append each packet-filter entry whose port
number is not already present in the accumulated result. -/
def mergeIpts (res0 : List IPPort) (ipts : List IptEntry) : List IPPort :=
  ipts.foldl (fun res ipt =>
    let found := res.any (fun re => re.Port == ipt.Port)
    if !found then res ++ [⟨ipt.IP, ipt.Port⟩] else res) res0

/-- Embeds `LocalPorts`: returns the (ports, error) pair and the new value of
`latestIPTables`. -/
def LocalPorts (env : LPEnv) : (List IPPort × Option String) × List IptEntry :=
  if env.bigEndian then (([], some bigEndianMsg), env.latest)
  else match env.parseErr with
  | some e => (([], some e), env.latest)
  | none =>
    let res := directPorts env.parsed
    if env.worth then
      match env.getPortsErr with
      | some e => ((res, some e), env.latest)
      | none => ((mergeIpts res env.getPortsVal, none), env.getPortsVal)
    else ((mergeIpts res env.latest, none), env.latest)

theorem mergeIpts_extra (ipts : List IptEntry) (res : List IPPort) :
    ∃ extra : List IPPort, mergeIpts res ipts = res ++ extra
      ∧ (∀ x, x ∈ extra → x.Port ∉ res.map IPPort.Port)
      ∧ (extra.map IPPort.Port).Nodup := by
  induction ipts generalizing res with
  | nil => exact ⟨[], by simp [mergeIpts], by simp, by simp⟩
  | cons ipt rest ih =>
      have hred : mergeIpts res (ipt :: rest)
          = mergeIpts (if !(res.any fun re => re.Port == ipt.Port)
              then res ++ [⟨ipt.IP, ipt.Port⟩] else res) rest := rfl
      by_cases hf : (res.any fun re => re.Port == ipt.Port) = true
      · have hsel : (if !(res.any fun re => re.Port == ipt.Port)
            then res ++ [⟨ipt.IP, ipt.Port⟩] else res) = res := by
          rw [hf]
          rfl
        have hstep : mergeIpts res (ipt :: rest) = mergeIpts res rest := by
          rw [hred, hsel]
        obtain ⟨extra, he, hp, hn⟩ := ih res
        exact ⟨extra, by rw [hstep, he], hp, hn⟩
      · have hf2 : (res.any fun re => re.Port == ipt.Port) = false := by
          cases h2 : res.any fun re => re.Port == ipt.Port
          · rfl
          · exact absurd h2 hf
        have hsel : (if !(res.any fun re => re.Port == ipt.Port)
            then res ++ [⟨ipt.IP, ipt.Port⟩] else res) = res ++ [⟨ipt.IP, ipt.Port⟩] := by
          rw [hf2]
          rfl
        have hstep : mergeIpts res (ipt :: rest)
            = mergeIpts (res ++ [⟨ipt.IP, ipt.Port⟩]) rest := by
          rw [hred, hsel]
        have hnotin : (ipt.Port : Int) ∉ res.map IPPort.Port := by
          intro hmem
          obtain ⟨re, hre, hrp⟩ := List.mem_map.mp hmem
          exact hf (List.any_eq_true.mpr ⟨re, hre, beq_iff_eq.mpr hrp⟩)
        obtain ⟨extra, he, hp, hn⟩ := ih (res ++ [⟨ipt.IP, ipt.Port⟩])
        refine ⟨⟨ipt.IP, ipt.Port⟩ :: extra, ?_, ?_, ?_⟩
        · rw [hstep, he]
          simp
        · intro x hx
          rcases List.mem_cons.mp hx with rfl | hx2
          · exact hnotin
          · intro hmem
            exact hp x hx2 (by simp [hmem])
        · simp only [List.map_cons, List.nodup_cons]
          refine ⟨?_, hn⟩
          intro hmem
          obtain ⟨x, hx, hpx⟩ := List.mem_map.mp hmem
          apply hp x hx
          rw [hpx]
          simp

/-- C6: the merge performed by `LocalPorts` appends to the direct-read list
only packet-filter entries whose port number is absent from it (direct-read
wins on a port-number collision), and the appended port numbers are pairwise
distinct, so no port number from the packet-filter source is duplicated; on
the successful path `LocalPorts` returns exactly this merge of the
direct-read ports with the packet-filter entries. -/
theorem C6_localPorts_merge_dedup :
    (∀ direct : List IPPort, ∀ ipts : List IptEntry,
      ∃ extra : List IPPort, mergeIpts direct ipts = direct ++ extra
        ∧ (∀ x, x ∈ extra → x.Port ∉ direct.map IPPort.Port)
        ∧ (extra.map IPPort.Port).Nodup)
    ∧ (∀ env : LPEnv, env.bigEndian = false → env.parseErr = none →
        env.worth = true → env.getPortsErr = none →
        (LocalPorts env).1.1 = mergeIpts (directPorts env.parsed) env.getPortsVal) := by
  constructor
  · intro direct ipts
    exact mergeIpts_extra ipts direct
  · intro env h1 h2 h3 h4
    simp [LocalPorts, h1, h2, h3, h4]

/-- Witness for C6: a direct-read port 8080 and a packet-filter rule naming
port 8080 as well; `LocalPorts` returns the merge on the successful path. -/
theorem C6_witness :
    (LocalPorts ⟨false, none, [⟨TCPKind.tcp, TCPState.listen, "127.0.0.1", 8080⟩],
        true, none, [⟨"0.0.0.0", 8080⟩], []⟩).1.1
      = mergeIpts (directPorts [⟨TCPKind.tcp, TCPState.listen, "127.0.0.1", 8080⟩])
          [⟨"0.0.0.0", 8080⟩] :=
  C6_localPorts_merge_dedup.2
    ⟨false, none, [⟨TCPKind.tcp, TCPState.listen, "127.0.0.1", 8080⟩],
      true, none, [⟨"0.0.0.0", 8080⟩], []⟩ rfl rfl rfl rfl

/-- C8: on a big-endian host, `LocalPorts` returns the unsupported-platform
error with a nil port list, independent of the parse results (the connection
tables are never consulted), and leaves the cached iptables state alone, so
no partial snapshot is ever returned. -/
theorem C8_big_endian_rejected (env : LPEnv) (h : env.bigEndian = true) :
    (LocalPorts env).1 = ([], some bigEndianMsg)
    ∧ (LocalPorts env).2 = env.latest := by
  constructor <;> simp [LocalPorts, h]

/-- Witness for C8: a big-endian environment with a non-trivial parse result
still yields the error and the empty list. -/
theorem C8_witness :
    (LocalPorts ⟨true, none, [⟨TCPKind.tcp, TCPState.listen, "127.0.0.1", 80⟩],
        true, none, [⟨"0.0.0.0", 8080⟩], [⟨"1.2.3.4", 53⟩]⟩).1
      = ([], some bigEndianMsg)
    ∧ (LocalPorts ⟨true, none, [⟨TCPKind.tcp, TCPState.listen, "127.0.0.1", 80⟩],
        true, none, [⟨"0.0.0.0", 8080⟩], [⟨"1.2.3.4", 53⟩]⟩).2
      = [⟨"1.2.3.4", 53⟩] :=
  C8_big_endian_rejected ⟨true, none, [⟨TCPKind.tcp, TCPState.listen, "127.0.0.1", 80⟩],
    true, none, [⟨"0.0.0.0", 8080⟩], [⟨"1.2.3.4", 53⟩]⟩ rfl

/-! ### `limactl start`: watching host agent events (pkg/start/start.go) -/

/-- The status carried by a host agent event, as consumed by
`watchHostAgentEvents`. -/
structure HAStatus where
  Running : Bool
  Degraded : Bool
  Exiting : Bool
  Errors : List String
  SSHLocalPort : Int
deriving DecidableEq, Repr

/-- A host agent event (`hostagentapi.Event`), as consumed by
`watchHostAgentEvents`. -/
structure HAEvent where
  Status : HAStatus
deriving DecidableEq, Repr

/-- Rendering of `%+v` for a status, used inside the error messages. -/
def fmtStatus (st : HAStatus) : String :=
  "\x7bRunning:" ++ toString st.Running ++ " Degraded:" ++ toString st.Degraded
    ++ " Exiting:" ++ toString st.Exiting ++ " SSHLocalPort:" ++ toString st.SSHLocalPort
    ++ "\x7d"

/-- The error produced for an `exiting` event; it references the host agent's
stderr log path. -/
def exitingMsg (haStderrPath : String) (st : HAStatus) : String :=
  "exiting, status=" ++ fmtStatus st ++ " (hint: see \x22" ++ haStderrPath ++ "\x22)"

/-- The error produced for a `running` event with `degraded` set. -/
def degradedMsg (st : HAStatus) : String :=
  "degraded, status=" ++ fmtStatus st

/-- The variables captured by the `onEvent` closure in
`watchHostAgentEvents`. -/
structure WatchState where
  printedSSHLocalPort : Bool
  receivedRunningEvent : Bool
  err : Option String
deriving DecidableEq, Repr

/-- Initial captured state of `watchHostAgentEvents`. -/
def initWatchState : WatchState := ⟨false, false, none⟩

/-- Embeds the `onEvent` closure: update the captured variables for one event
and report whether to stop watching. -/
def onEvent (haStderrPath : String) (s : WatchState) (ev : HAEvent) : WatchState × Bool :=
  let s1 :=
    if !s.printedSSHLocalPort && ev.Status.SSHLocalPort != 0
    then { s with printedSSHLocalPort := true } else s
  if ev.Status.Exiting then
    ({ s1 with err := some (exitingMsg haStderrPath ev.Status) }, true)
  else if ev.Status.Running then
    let s2 := { s1 with receivedRunningEvent := true }
    if ev.Status.Degraded then
      ({ s2 with err := some (degradedMsg ev.Status) }, true)
    else
      ({ s2 with err := none }, true)
  else (s1, false)

/-- Embeds the `WatchEvents` processing loop: feed events to `onEvent` until
it returns true; the Bool reports whether a terminal event was reached. -/
def processEvents (haStderrPath : String) : WatchState → List HAEvent → WatchState × Bool
  | s, [] => (s, false)
  | s, e :: rest =>
      let r := onEvent haStderrPath s e
      if r.2 then (r.1, true) else processEvents haStderrPath r.1 rest

/-- The error `watchHostAgentEvents` returns when the stream ends after the
events `evs` (with `WatchEvents` itself succeeding). -/
def watchResult (haStderrPath : String) (evs : List HAEvent) : Option String :=
  let r := processEvents haStderrPath initWatchState evs
  match r.1.err with
  | some e => some e
  | none =>
      if !r.1.receivedRunningEvent
      then some "did not receive an event with the \x22running\x22 status"
      else none

/-- An event is terminal when it has `exiting` or `running` set. -/
def isTerminalEv (ev : HAEvent) : Bool := ev.Status.Exiting || ev.Status.Running

theorem onEvent_err_exiting (haStderrPath : String) (s : WatchState) (ev : HAEvent)
    (h : ev.Status.Exiting = true) :
    (onEvent haStderrPath s ev).2 = true
    ∧ (onEvent haStderrPath s ev).1.err = some (exitingMsg haStderrPath ev.Status) := by
  by_cases hc : (!s.printedSSHLocalPort && ev.Status.SSHLocalPort != 0) = true
  · simp [onEvent, h, hc]
  · simp [onEvent, h, hc]

theorem onEvent_err_degraded (haStderrPath : String) (s : WatchState) (ev : HAEvent)
    (h : ev.Status.Exiting = false) (h2 : ev.Status.Running = true)
    (h3 : ev.Status.Degraded = true) :
    (onEvent haStderrPath s ev).2 = true
    ∧ (onEvent haStderrPath s ev).1.err = some (degradedMsg ev.Status) := by
  by_cases hc : (!s.printedSSHLocalPort && ev.Status.SSHLocalPort != 0) = true
  · simp [onEvent, h, h2, h3, hc]
  · simp [onEvent, h, h2, h3, hc]

theorem onEvent_err_ready (haStderrPath : String) (s : WatchState) (ev : HAEvent)
    (h : ev.Status.Exiting = false) (h2 : ev.Status.Running = true)
    (h3 : ev.Status.Degraded = false) :
    (onEvent haStderrPath s ev).2 = true
    ∧ (onEvent haStderrPath s ev).1.err = none
    ∧ (onEvent haStderrPath s ev).1.receivedRunningEvent = true := by
  by_cases hc : (!s.printedSSHLocalPort && ev.Status.SSHLocalPort != 0) = true
  · simp [onEvent, h, h2, h3, hc]
  · simp [onEvent, h, h2, h3, hc]

theorem onEvent_nonterminal (haStderrPath : String) (s : WatchState) (ev : HAEvent)
    (h : isTerminalEv ev = false) :
    (onEvent haStderrPath s ev).2 = false
    ∧ (onEvent haStderrPath s ev).1.err = s.err
    ∧ (onEvent haStderrPath s ev).1.receivedRunningEvent = s.receivedRunningEvent := by
  rw [isTerminalEv, Bool.or_eq_false_iff] at h
  by_cases hc : (!s.printedSSHLocalPort && ev.Status.SSHLocalPort != 0) = true
  · simp [onEvent, h.1, h.2, hc]
  · simp [onEvent, h.1, h.2, hc]

theorem processEvents_nonterminal (haStderrPath : String) (evs : List HAEvent)
    (s : WatchState) (h : ∀ e ∈ evs, isTerminalEv e = false) :
    (processEvents haStderrPath s evs).2 = false
    ∧ (processEvents haStderrPath s evs).1.err = s.err
    ∧ (processEvents haStderrPath s evs).1.receivedRunningEvent
        = s.receivedRunningEvent := by
  induction evs generalizing s with
  | nil => simp [processEvents]
  | cons e rest ih =>
      have he := onEvent_nonterminal haStderrPath s e (h e (List.mem_cons_self _ _))
      have hrest := ih (onEvent haStderrPath s e).1
        (fun x hx => h x (List.mem_cons_of_mem _ hx))
      rw [processEvents, he.1]
      simp only [Bool.false_eq_true, if_false]
      exact ⟨hrest.1, hrest.2.1.trans he.2.1, hrest.2.2.trans he.2.2⟩

theorem processEvents_append_of_no_stop (haStderrPath : String) (l1 l2 : List HAEvent)
    (s : WatchState) (h : (processEvents haStderrPath s l1).2 = false) :
    processEvents haStderrPath s (l1 ++ l2)
      = processEvents haStderrPath (processEvents haStderrPath s l1).1 l2 := by
  induction l1 generalizing s with
  | nil => simp [processEvents]
  | cons e rest ih =>
      rw [processEvents] at h
      by_cases hstop : (onEvent haStderrPath s e).2 = true
      · rw [if_pos hstop] at h
        cases h
      · have hstop2 : (onEvent haStderrPath s e).2 = false := by
          cases h2 : (onEvent haStderrPath s e).2
          · rfl
          · exact absurd h2 hstop
        rw [if_neg hstop] at h
        rw [List.cons_append, processEvents, processEvents, hstop2]
        simp only [Bool.false_eq_true, if_false]
        exact ih _ h

theorem processEvents_cons_stop (haStderrPath : String) (e : HAEvent)
    (rest : List HAEvent) (s : WatchState) (h : (onEvent haStderrPath s e).2 = true) :
    processEvents haStderrPath s (e :: rest) = ((onEvent haStderrPath s e).1, true) := by
  rw [processEvents, if_pos h]

/-- C4: folding lifecycle events, the first event with `exiting` or `running`
set is terminal: the fold stops there with the same result whatever follows;
`exiting` yields the failure message referencing the stderr log, `running`
with `degraded` yields the degraded failure message, `running` without
`degraded` yields a nil error (Ready); and a stream of non-terminal events
never ends the fold by itself. -/
theorem C4_watch_terminal_fold (path : String) (pre post : List HAEvent) (t : HAEvent)
    (hpre : ∀ e ∈ pre, isTerminalEv e = false) (ht : isTerminalEv t = true) :
    (processEvents path initWatchState (pre ++ t :: post)
        = processEvents path initWatchState (pre ++ [t]))
    ∧ (processEvents path initWatchState (pre ++ t :: post)).2 = true
    ∧ (t.Status.Exiting = true →
        (processEvents path initWatchState (pre ++ t :: post)).1.err
          = some (exitingMsg path t.Status))
    ∧ (t.Status.Exiting = false → t.Status.Degraded = true →
        (processEvents path initWatchState (pre ++ t :: post)).1.err
          = some (degradedMsg t.Status))
    ∧ (t.Status.Exiting = false → t.Status.Degraded = false →
        (processEvents path initWatchState (pre ++ t :: post)).1.err = none)
    ∧ (∀ evs : List HAEvent, (∀ e ∈ evs, isTerminalEv e = false) →
        (processEvents path initWatchState evs).2 = false) := by
  have hnp := processEvents_nonterminal path pre initWatchState hpre
  have hrun_of : t.Status.Exiting = false → t.Status.Running = true := by
    intro hex
    rw [isTerminalEv, Bool.or_eq_true] at ht
    rcases ht with h | h
    · rw [hex] at h
      cases h
    · exact h
  have hstop : (onEvent path (processEvents path initWatchState pre).1 t).2 = true := by
    by_cases hex : t.Status.Exiting = true
    · exact (onEvent_err_exiting path _ t hex).1
    · have hex2 : t.Status.Exiting = false := by
        cases hh : t.Status.Exiting
        · rfl
        · exact absurd hh hex
      have hrun := hrun_of hex2
      by_cases hdeg : t.Status.Degraded = true
      · exact (onEvent_err_degraded path _ t hex2 hrun hdeg).1
      · have hdeg2 : t.Status.Degraded = false := by
          cases hh : t.Status.Degraded
          · rfl
          · exact absurd hh hdeg
        exact (onEvent_err_ready path _ t hex2 hrun hdeg2).1
  have happ := processEvents_append_of_no_stop path pre (t :: post) initWatchState hnp.1
  have happ2 := processEvents_append_of_no_stop path pre [t] initWatchState hnp.1
  have hcons := processEvents_cons_stop path t post _ hstop
  have hcons2 := processEvents_cons_stop path t [] _ hstop
  have hmain : processEvents path initWatchState (pre ++ t :: post)
      = ((onEvent path (processEvents path initWatchState pre).1 t).1, true) := by
    rw [happ, hcons]
  refine ⟨?_, ?_, ?_, ?_, ?_, ?_⟩
  · rw [hmain, happ2, hcons2]
  · rw [hmain]
  · intro hex
    rw [hmain]
    exact (onEvent_err_exiting path _ t hex).2
  · intro hex hdeg
    rw [hmain]
    exact (onEvent_err_degraded path _ t hex (hrun_of hex) hdeg).2
  · intro hex hdeg
    rw [hmain]
    exact (onEvent_err_ready path _ t hex (hrun_of hex) hdeg).2.1
  · intro evs h
    exact (processEvents_nonterminal path evs initWatchState h).1

/-- Witness for C4: a non-terminal event, then a plain `running` event, then a
trailing `exiting` event that is never processed; the fold stops with a nil
error. -/
theorem C4_witness :
    (processEvents "ha.stderr.log" initWatchState
        ([⟨⟨false, false, false, [], 0⟩⟩]
          ++ (⟨⟨true, false, false, [], 22⟩⟩ : HAEvent)
            :: [⟨⟨false, false, true, [], 0⟩⟩])).1.err = none
    ∧ (processEvents "ha.stderr.log" initWatchState
        ([⟨⟨false, false, false, [], 0⟩⟩]
          ++ (⟨⟨true, false, false, [], 22⟩⟩ : HAEvent)
            :: [⟨⟨false, false, true, [], 0⟩⟩])).2 = true :=
  ⟨(C4_watch_terminal_fold "ha.stderr.log" [⟨⟨false, false, false, [], 0⟩⟩]
      [⟨⟨false, false, true, [], 0⟩⟩] ⟨⟨true, false, false, [], 22⟩⟩
      (by decide) (by decide)).2.2.2.2.1 rfl rfl,
    (C4_watch_terminal_fold "ha.stderr.log" [⟨⟨false, false, false, [], 0⟩⟩]
      [⟨⟨false, false, true, [], 0⟩⟩] ⟨⟨true, false, false, [], 22⟩⟩
      (by decide) (by decide)).2.1⟩

/-! ### The race between the event watcher and the subprocess wait -/

/-- Which channel of the final `select` in `Start` resolves first, and the
value it carries. -/
inductive RaceResult
  | watchFirst (watchErr : Option String)
  | waitFirst (waitErr : Option String)
deriving DecidableEq, Repr

/-- Go's `fmt.Errorf("<head>: %w", err)` message for a possibly-nil wrapped
error (a nil error renders as `%!w(<nil>)`). -/
def errorfW (head : String) (w : Option String) : String :=
  head ++ ": " ++ (match w with | some m => m | none => "%!w(<nil>)")

/-- Embeds the `select` at the end of `Start`: the watcher's result is
returned as-is (possibly nil), while a subprocess exit is always wrapped into
a non-nil "host agent process has exited" error. -/
def startSelect : RaceResult → Option String
  | RaceResult.watchFirst w => w
  | RaceResult.waitFirst w => some (errorfW "host agent process has exited" w)

/-- C5: whenever the subprocess exit resolves first, `Start` returns a
non-nil error beginning "host agent process has exited", for every wait
status including a nil wait error (exit code zero). -/
theorem C5_wait_exit_always_fatal (w : Option String) :
    startSelect (RaceResult.waitFirst w) ≠ none
    ∧ ∃ rest : String, startSelect (RaceResult.waitFirst w)
        = some ("host agent process has exited: " ++ rest) := by
  constructor
  · simp [startSelect]
  · cases w with
    | none => exact ⟨"%!w(<nil>)", rfl⟩
    | some m => exact ⟨m, rfl⟩

/-- Witness for C5 at a nil wait error (exit code zero): still a failure. -/
theorem C5_witness : startSelect (RaceResult.waitFirst none) ≠ none :=
  (C5_wait_exit_always_fatal none).1

/-! ### Worthiness flag idle decay -/

/-- The state shared by the two loops of `setWorthCheckingIPTablesRoutine`:
the flag and the time of the last true-setting notification. -/
structure WState where
  worthCheckingIPTables : Bool
  latestTrue : Nat
deriving DecidableEq, Repr

/-- A `NETFILTER_CFG` audit message received at time `now`: set the flag and
remember the time. -/
def notifyNetfilter (now : Nat) (s : WState) : WState :=
  { s with worthCheckingIPTables := true, latestTrue := now }

/-- One check of the idle goroutine at time `now`: clear the flag when at
least `iptablesIdle` has elapsed since the last true-setting notification. -/
def idleCheck (iptablesIdle now : Nat) (s : WState) : WState :=
  if iptablesIdle ≤ now - s.latestTrue
  then { s with worthCheckingIPTables := false } else s

/-- A sequence of idle-loop checks at the given times. -/
def runChecks (iptablesIdle : Nat) (times : List Nat) (s : WState) : WState :=
  times.foldl (fun s t => idleCheck iptablesIdle t s) s

theorem runChecks_in_window (T t0 : Nat) (ts : List Nat) (s0 : WState)
    (h : ∀ t ∈ ts, t0 ≤ t ∧ t < t0 + T) :
    runChecks T ts (notifyNetfilter t0 s0) = notifyNetfilter t0 s0 := by
  induction ts with
  | nil => rfl
  | cons t ts ih =>
      have ht := h t (List.mem_cons_self _ _)
      have hne : ¬T ≤ t - (notifyNetfilter t0 s0).latestTrue := by
        show ¬T ≤ t - t0
        omega
      have hstep : idleCheck T t (notifyNetfilter t0 s0) = notifyNetfilter t0 s0 := by
        rw [idleCheck, if_neg hne]
      rw [runChecks, List.foldl_cons, hstep]
      exact ih (fun x hx => h x (List.mem_cons_of_mem _ hx))

/-- C9: after a true-setting notification at `t0` with idle timeout `T` and
no further notifications, the flag is still true after any sequence of
idle-loop checks at times in [t0, t0+T), and the first check at a time
≥ t0 + T sets it to false. -/
theorem C9_worthiness_idle_decay (T t0 tF : Nat) (ts : List Nat) (s0 : WState)
    (hts : ∀ t ∈ ts, t0 ≤ t ∧ t < t0 + T) (hF : t0 + T ≤ tF) :
    (runChecks T ts (notifyNetfilter t0 s0)).worthCheckingIPTables = true
    ∧ (idleCheck T tF (runChecks T ts (notifyNetfilter t0 s0))).worthCheckingIPTables
        = false := by
  have hwin := runChecks_in_window T t0 ts s0 hts
  constructor
  · rw [hwin]
    rfl
  · have hlt : (notifyNetfilter t0 s0).latestTrue = t0 := rfl
    have hc : T ≤ tF - (notifyNetfilter t0 s0).latestTrue := by
      omega
    rw [hwin, idleCheck, if_pos hc]

/-- Witness for C9: T = 10, notification at t0 = 5, checks at 5, 9 and 14
leave the flag true; the check at 15 = t0 + T clears it. -/
theorem C9_witness :
    (runChecks 10 [5, 9, 14] (notifyNetfilter 5 ⟨false, 0⟩)).worthCheckingIPTables = true
    ∧ (idleCheck 10 15 (runChecks 10 [5, 9, 14]
        (notifyNetfilter 5 ⟨false, 0⟩))).worthCheckingIPTables = false :=
  C9_worthiness_idle_decay 10 5 15 [5, 9, 14] ⟨false, 0⟩ (by decide) (by decide)

end Lima
